import Mathlib

/-!
Verification of `src/network/networkd-link.c` (the per-link network
configuration state machine of an early systemd-networkd).

The development has two layers:

* A *value-level* model of the individual operations: the route/address
  specifications built and submitted by `link_enter_set_routes` and
  `link_enter_set_addresses`, the IPv4LL address update issued by
  `ipv4ll_address_update`, the DHCP/IPv4LL arbitration fragments of
  `dhcp_handler`, the MTU capture of `link_update`, the teardown ops of
  `dhcp_lease_lost`, the state-file writer `link_save`, and the
  constructor `link_new`.  These are direct translations of the C code,
  with the submissions recorded as an emission trace.

* An *event-level* transition system for the link state machine: the
  link state, the pending-completion counters (`addr_messages`,
  `route_messages`, `enslaving`) and the FIFO queue of in-flight kernel
  completions.  The kernel adapter delivers completions in submission
  order per link (each submitted operation triggers its callback exactly
  once), so the queue is a faithful model of the in-flight messages, and
  the counters are updated exactly where the C code updates them.
  C asserts are modelled as in a production (NDEBUG) build: they have no
  effect; handler behaviour on assert-violating inputs follows the code
  that executes after the assert.

Out-of-memory paths (`new0`, `strdup`, `asprintf`, `route_new_dynamic`,
`address_new_dynamic`, `hashmap_put`) are modelled as succeeding;
fallible collaborator calls (`*_configure`, `netdev_enslave`,
`dhcp_lease_save`, `rename`, …) are driven by explicit success oracles.
-/

namespace Networkd

/-! ### Constants from the C headers -/

/-- `AF_INET` from `<sys/socket.h>`. -/
def AF_INET : Nat := 2

/-- `RT_SCOPE_LINK` from `<linux/rtnetlink.h>`. -/
def RT_SCOPE_LINK : Nat := 253

/-- `RT_SCOPE_UNIVERSE` (the zero default left by `route_new_dynamic`). -/
def RT_SCOPE_UNIVERSE : Nat := 0

/-- `CACHE_INFO_INFINITY_LIFE_TIME` (`0xffffffff`). -/
def CACHE_INFO_INFINITY_LIFE_TIME : Nat := 4294967295

/-- `RTM_NEWLINK` from `<linux/rtnetlink.h>`. -/
def RTM_NEWLINK : Nat := 16

/-- `EINVAL`. -/
def EINVAL : Int := 22

/-! ### Value-level route and address specifications

`route_new_dynamic` and `address_new_dynamic` allocate zero-filled
specifications (`new0`), so every field not assigned by the code is 0.
IPv4 addresses are 32-bit words (`struct in_addr.s_addr`) modelled as
`Nat` values below `2^32`. -/

/-- A route specification as built by `networkd-link.c` before
`route_configure` / `route_drop` (fields of `Route` that the file
assigns; all others stay at their zero default). -/
structure RouteSpec where
  family : Nat := 0
  dstAddr : Nat := 0
  dstPlen : Nat := 0
  scope : Nat := 0
  metrics : Nat := 0
  inAddr : Nat := 0
deriving DecidableEq, Repr

/-- An address specification as built by `networkd-link.c` before
`address_configure` / `address_update` / `address_drop`. -/
structure AddressSpec where
  family : Nat := 0
  inAddr : Nat := 0
  plen : Nat := 0
  broadcast : Nat := 0
  scope : Nat := 0
  prefered : Nat := CACHE_INFO_INFINITY_LIFE_TIME
deriving DecidableEq, Repr

/-- A DHCP lease as read through the `sd_dhcp_lease_get_*` accessors
used by this file: address, netmask and router are always present on a
lease handed to `dhcp_lease_acquired` (their absence makes the handler
bail out before the lease is stored). -/
structure LeaseData where
  addr : Nat
  netmask : Nat
  router : Nat
deriving DecidableEq, Repr

/-- Bitwise complement of a 32-bit word: `~m` on a `uint32_t`. -/
def compl32 (m : Nat) : Nat := Nat.xor m 4294967295

/-- Number of one bits among the low `fuel` bits of `m`. -/
def popCount : Nat → Nat → Nat
  | 0, _ => 0
  | f + 1, m => m % 2 + popCount f (m / 2)

/-- Modelled from the spec: `net_netmask_to_prefixlen` lives in
`network-internal.c`, which is not part of this repository snapshot.
The spec describes it as computing the prefix length of a netmask
(e.g. `255.255.255.0 ↦ 24`), i.e. the number of one bits of the
32-bit mask. -/
def netmaskToPlen (m : Nat) : Nat := popCount 32 m

/-! ### `link_enter_set_routes`, value level (lines 186-307)

The function submits, in program order:
1. every static route of the profile,
2. if an IPv4LL client exists, no DHCP lease is held and the IPv4LL
   client has claimed an address: one link-scope metric-99 route,
3. if a DHCP lease is held: a host route to the gateway
   (`/32`, scope `RT_SCOPE_LINK`) and then a default route with
   `in_addr = gateway`.
The emission list records the `route_configure` calls in order. -/

/-- The gateway host route built at lines 278-281. -/
def gwHostRoute (gw : Nat) : RouteSpec :=
  { family := AF_INET, dstAddr := gw, dstPlen := 32, scope := RT_SCOPE_LINK }

/-- The default route built at lines 292-293. -/
def gwDefaultRoute (gw : Nat) : RouteSpec :=
  { family := AF_INET, inAddr := gw }

/-- The IPv4LL link-scope route built at lines 233-235. -/
def llRoute : RouteSpec :=
  { family := AF_INET, scope := RT_SCOPE_LINK, metrics := 99 }

/-- Routes submitted by `link_enter_set_routes`, in submission order.
`llAddr` is `some a` when the link has an IPv4LL client whose
`sd_ipv4ll_get_address` succeeds with `a`. -/
def setRoutesEmissions (staticRoutes : List RouteSpec)
    (lease : Option LeaseData) (llAddr : Option Nat) : List RouteSpec :=
  staticRoutes
    ++ (match lease, llAddr with
        | none, some _ => [llRoute]
        | _, _ => [])
    ++ (match lease with
        | some l => [gwHostRoute l.router, gwDefaultRoute l.router]
        | none => [])

/-! ### `link_enter_set_addresses`, value level (lines 362-472) -/

/-- The IPv4LL address built at lines 408-412: `/16`, scope link,
broadcast `addr | htonl(0xffffffff >> 16)`.  On the 32-bit word this is
`addr | ~netmask` for the /16 netmask, i.e. or with the low half mask in
network byte order; we record the exact expression on the word. -/
def llAddressSpec (a : Nat) : AddressSpec :=
  { family := AF_INET, inAddr := a, plen := 16,
    broadcast := Nat.lor a (Nat.shiftRight 4294967295 16),
    scope := RT_SCOPE_LINK }

/-- The DHCP lease address built at lines 455-458: leased address with
the prefix length computed from the netmask and
`broadcast = addr.s_addr | ~netmask.s_addr`. -/
def dhcpAddressSpec (l : LeaseData) : AddressSpec :=
  { family := AF_INET, inAddr := l.addr, plen := netmaskToPlen l.netmask,
    broadcast := Nat.lor l.addr (compl32 l.netmask) }

/-- Addresses submitted by `link_enter_set_addresses`, in submission
order: static addresses, then the IPv4LL address (if an IPv4LL address
is claimed and no lease is held), then the lease address. -/
def setAddressesEmissions (staticAddresses : List AddressSpec)
    (lease : Option LeaseData) (llAddr : Option Nat) : List AddressSpec :=
  staticAddresses
    ++ (match lease, llAddr with
        | none, some a => [llAddressSpec a]
        | _, _ => [])
    ++ (match lease with
        | some l => [dhcpAddressSpec l]
        | none => [])

/-! ### Side-effect operations issued by the handlers (value level) -/

/-- An operation submitted to a collaborator (kernel adapter, DHCP or
IPv4LL client, hostname setter), as issued by the handlers of
`networkd-link.c`. -/
inductive LinkOp
  | configureAddress (a : AddressSpec)
  | updateAddress (a : AddressSpec)
  | dropAddress (a : AddressSpec)
  | configureRoute (r : RouteSpec)
  | dropRoute (r : RouteSpec)
  | setMtu (m : Nat)
  | setHostname (h : String)
  | startLL
  | stopLL
deriving DecidableEq, Repr

/-- The address re-issued by `ipv4ll_address_update` (lines 891-896):
`/16`, scope link, `ifa_prefered = deprecate ? 0 : ∞`, broadcast
`addr | htonl(0xffffffff >> 16)`. -/
def llUpdateSpec (deprecate : Bool) (a : Nat) : AddressSpec :=
  { family := AF_INET, inAddr := a, plen := 16,
    broadcast := Nat.lor a (Nat.shiftRight 4294967295 16),
    scope := RT_SCOPE_LINK,
    prefered := if deprecate then 0 else CACHE_INFO_INFINITY_LIFE_TIME }

/-- `ipv4ll_address_update` (lines 871-903): if `sd_ipv4ll_get_address`
succeeds, re-issue the link-local address via `address_update`;
otherwise do nothing. -/
def ipv4llAddressUpdateOps (deprecate : Bool) (llAddr : Option Nat) :
    List LinkOp :=
  match llAddr with
  | some a => [.updateAddress (llUpdateSpec deprecate a)]
  | none => []

/-- The IPv4LL arbitration fragment of `dhcp_handler` on
`DHCP_EVENT_IP_ACQUIRE` (lines 849-858): if the IPv4LL client exists and
is bound, deprecate its address, else stop the client. -/
def acquireArbitrationOps (llClient : Bool) (llAddr : Option Nat) :
    List LinkOp :=
  if llClient then
    match llAddr with
    | some a => ipv4llAddressUpdateOps true (some a)
    | none => [.stopLL]
  else []

/-- The IPv4LL fragment of `dhcp_handler` on `DHCP_EVENT_EXPIRED`
(lines 831-840): if the profile enables IPv4LL, start the client when it
is not running, else re-approve its address when it is bound. -/
def expiredIpv4llOps (netIpv4ll llRunning : Bool) (llAddr : Option Nat) :
    List LinkOp :=
  if netIpv4ll then
    if llRunning then
      match llAddr with
      | some a => ipv4llAddressUpdateOps false (some a)
      | none => []
    else [.startLL]
  else []

/-! ### `link_update` MTU capture (lines 1549-1554) -/

/-- The `original_mtu` field after one `link_update` call:
`if (!link->original_mtu) sd_rtnl_message_read_u16(m, IFLA_MTU, &...)`,
i.e. the message MTU is read into the field only while it is still 0
(its `new0` initial value); a message without `IFLA_MTU` leaves it
untouched. -/
def linkUpdateMtu (originalMtu : Nat) (msgMtu : Option Nat) : Nat :=
  if originalMtu = 0 then msgMtu.getD 0 else originalMtu

/-! ### `dhcp_lease_lost` (lines 617-692), value level -/

/-- The address dropped at lines 657-661: family, leased address and
prefix length only (broadcast is left at its zero default). -/
def leaseDropAddressSpec (l : LeaseData) : AddressSpec :=
  { family := AF_INET, inAddr := l.addr, plen := netmaskToPlen l.netmask }

/-- Operations issued by `dhcp_lease_lost`, in program order: drop the
gateway host route, drop the default route, drop the leased address;
then restore `original_mtu` when `dhcp_mtu` was applied and the lease
MTU differs from it; then clear the transient hostname (empty string)
when `dhcp_hostname` was applied and the lease carried a hostname. -/
def dhcpLeaseLostOps (l : LeaseData) (dhcpMtu : Bool) (leaseMtu : Option Nat)
    (originalMtu : Nat) (dhcpHostname : Bool) (leaseHostname : Option String) :
    List LinkOp :=
  [.dropRoute (gwHostRoute l.router), .dropRoute (gwDefaultRoute l.router),
   .dropAddress (leaseDropAddressSpec l)]
    ++ (if dhcpMtu then
          match leaseMtu with
          | some m => if originalMtu ≠ m then [.setMtu originalMtu] else []
          | none => []
        else [])
    ++ (if dhcpHostname then
          match leaseHostname with
          | some _ => [.setHostname ""]
          | none => []
        else [])

/-! ### `link_save` (lines 1604-1654)

The writer opens a temporary file next to the state file, `fchmod`s it,
writes the header and `STATE=` line, optionally serializes the lease and
writes the `DHCP_LEASE=` line, flushes, and renames the temporary file
over the state file.  Failure handling in the C code:
`fopen_temporary` failure and `dhcp_lease_save` failure jump to `finish`
without removing anything; only a stream error (`ferror`) or a `rename`
failure unlink both the state file and the temporary file.  The oracle
booleans say which fallible step succeeds. -/

inductive FsOp
  | openTemp
  | chmodTemp
  | writeHeader
  | saveLease
  | writeLeaseRef
  | flushTemp
  | renameTemp
  | unlinkTarget
  | unlinkTemp
deriving DecidableEq, Repr

/-- File-system operations performed by `link_save`, in program order,
paired with `true` iff the call returns success. -/
def linkSave (leaseHeld tempOk leaseOk flushOk renameOk : Bool) :
    List FsOp × Bool :=
  if tempOk = false then ([.openTemp], false)
  else
    let ops : List FsOp := [.openTemp, .chmodTemp, .writeHeader]
    if leaseHeld ∧ leaseOk = false then (ops ++ [.saveLease], false)
    else
      let ops := ops ++ (if leaseHeld then [.saveLease, .writeLeaseRef] else [])
      let ops := ops ++ [.flushTemp]
      if flushOk = false then (ops ++ [.unlinkTarget, .unlinkTemp], false)
      else if renameOk = false then
        (ops ++ [.renameTemp, .unlinkTarget, .unlinkTemp], false)
      else (ops ++ [.renameTemp], true)

/-! ### `link_new` (lines 38-89) -/

/-- `link_new`: reject messages that are not `RTM_NEWLINK` and messages
whose interface index is not positive with `-EINVAL`; read the interface
name (propagating its error); then insert the new link into the
manager's registry (modelled as the list of registered interface
indices).  Returns the resulting registry and `some errno` on failure. -/
def linkNew (links : List Int) (msgType : Nat) (ifindex : Int)
    (ifnameOk : Bool) (nameErr : Int) : List Int × Option Int :=
  if msgType ≠ RTM_NEWLINK then (links, some (-EINVAL))
  else if ifindex ≤ 0 then (links, some (-EINVAL))
  else if ifnameOk = false then (links, some nameErr)
  else (links ++ [ifindex], none)

/-! ### The event-level link state machine

State of one `Link` as far as the configuration machine is concerned:
the `state` field, the three pending counters, the FIFO queue of
in-flight kernel completions (one entry per submitted asynchronous
operation, delivered in submission order), whether a DHCP lease is
stored and whether the IPv4LL client currently has a claimed address.
Completion payloads irrelevant to control flow are abstracted: a queue
entry records only which counter its handler touches. -/

inductive LinkState
  | initializing
  | enslavingS
  | settingAddresses
  | settingRoutes
  | configured
  | failed
deriving DecidableEq, Repr

/-- Kind of an in-flight completion: which handler will consume it.
`cother` covers completions whose handlers only log (`link_up_handler`,
`set_mtu_handler`, `address_update_handler`, `address_drop_handler`,
`route_drop_handler`). -/
inductive CKind
  | caddr
  | croute
  | censlave
  | cother
deriving DecidableEq, Repr

/-- The static facts of the matched `Network` profile that the machine
consults: how many static addresses/routes it lists, how many virtual
parents it names (bridge, bond, vlans, macvlans), and the boolean
options. -/
structure Network where
  staticAddrs : Nat := 0
  staticRoutes : Nat := 0
  parents : Nat := 0
  dhcp : Bool := false
  ipv4ll : Bool := false
  dhcpCritical : Bool := false
  dhcpMtu : Bool := false
deriving DecidableEq, Repr

/-- Machine state of one link.  `link_new` zero-fills the `Link`
(`new0`) and sets `state = LINK_STATE_INITIALIZING`, so the default
value is the initial state. -/
structure LinkS where
  state : LinkState := .initializing
  addrMessages : Nat := 0
  routeMessages : Nat := 0
  enslaving : Nat := 0
  q : List CKind := []
  lease : Bool := false
  bound : Bool := false
deriving DecidableEq, Repr

/-- Submit one asynchronous operation of kind `k`: enqueue its
completion and perform the counter increment the C code performs right
after the corresponding `*_configure` / `netdev_enslave` call. -/
def push (k : CKind) (s : LinkS) : LinkS :=
  { s with
    q := s.q ++ [k],
    addrMessages := s.addrMessages + (if k = .caddr then 1 else 0),
    routeMessages := s.routeMessages + (if k = .croute then 1 else 0),
    enslaving := s.enslaving + (if k = .censlave then 1 else 0) }

/-- Head of a submission-success oracle; an exhausted oracle means
success. -/
def oHead (o : List Bool) : Bool := o.headD true

/-- Submit up to `n` operations of kind `k`, consulting the oracle for
each `*_configure` result; the C loops bail out (towards
`link_enter_failed`) on the first failed submission, leaving the
earlier submissions in flight.  Returns the new state, whether all `n`
submissions succeeded, and the remaining oracle. -/
def submitMany (k : CKind) : Nat → List Bool → LinkS → LinkS × Bool × List Bool
  | 0, o, s => (s, true, o)
  | n + 1, o, s =>
    if oHead o then submitMany k n o.tail (push k s)
    else (s, false, o.tail)

/-- `link_enter_configured` (lines 131-142): record the state and save;
the asserts are compiled out. -/
def linkEnterConfigured (s : LinkS) : LinkS := { s with state := .configured }

/-- `link_enter_failed` (lines 144-152). -/
def linkEnterFailed (s : LinkS) : LinkS := { s with state := .failed }

/-- `link_enter_set_routes` (lines 186-307): set the state, short-cut to
configured when no route would be submitted, else submit static routes,
the IPv4LL route and the two lease routes, bailing out to FAILED on a
failed submission — except that a failed host-route submission merely
returns (lines 283-288). -/
def linkEnterSetRoutes (net : Network) (o : List Bool) (s : LinkS) : LinkS :=
  let s := { s with state := .settingRoutes }
  if net.staticRoutes = 0 ∧ s.lease = false ∧
      (net.ipv4ll = false ∨ s.bound = false) then
    linkEnterConfigured s
  else
    match submitMany .croute net.staticRoutes o s with
    | (s, false, _) => linkEnterFailed s
    | (s, true, o) =>
      match (if net.ipv4ll = true ∧ s.lease = false ∧ s.bound = true then
               (if oHead o then (push .croute s, true, o.tail)
                else (s, false, o.tail))
             else (s, true, o) : LinkS × Bool × List Bool) with
      | (s, false, _) => linkEnterFailed s
      | (s, true, o) =>
        if s.lease then
          if oHead o then
            let s := push .croute s
            if oHead o.tail then push .croute s else linkEnterFailed s
          else s
        else s

/-- `link_enter_set_addresses` (lines 362-472): set the state, short-cut
to `link_enter_set_routes` when no address would be submitted, else
submit static addresses, the IPv4LL address and the lease address,
bailing out to FAILED on a failed submission. -/
def linkEnterSetAddresses (net : Network) (o : List Bool) (s : LinkS) : LinkS :=
  let s := { s with state := .settingAddresses }
  if net.staticAddrs = 0 ∧ s.lease = false ∧
      (net.ipv4ll = false ∨ s.bound = false) then
    linkEnterSetRoutes net o s
  else
    match submitMany .caddr net.staticAddrs o s with
    | (s, false, _) => linkEnterFailed s
    | (s, true, o) =>
      match (if net.ipv4ll = true ∧ s.lease = false ∧ s.bound = true then
               (if oHead o then (push .caddr s, true, o.tail)
                else (s, false, o.tail))
             else (s, true, o) : LinkS × Bool × List Bool) with
      | (s, false, _) => linkEnterFailed s
      | (s, true, o) =>
        if s.lease then
          if oHead o then push .caddr s else linkEnterFailed s
        else s

/-- Tail of `link_enslaved` (lines 1250-1253): with neither DHCP nor
IPv4LL requested, move straight to address configuration. -/
def linkEnslavedCont (net : Network) (o : List Bool) (s : LinkS) : LinkS :=
  if net.dhcp = false ∧ net.ipv4ll = false then linkEnterSetAddresses net o s
  else s

/-- `link_enslaved` (lines 1235-1254): bring the interface up first when
`IFF_UP` is not set (one `RTM_SETLINK` submission; a failed submission
enters FAILED). -/
def linkEnslaved (net : Network) (up : Bool) (o : List Bool) (s : LinkS) :
    LinkS :=
  if up then linkEnslavedCont net o s
  else if oHead o then linkEnslavedCont net o.tail (push .cother s)
  else linkEnterFailed s

/-- `link_enter_enslave` (lines 1288-1385): set the state; with no
virtual parent, run `link_enslaved` directly; else submit one enslave
request per parent, entering FAILED on a failed submission. -/
def linkEnterEnslave (net : Network) (up : Bool) (o : List Bool) (s : LinkS) :
    LinkS :=
  let s := { s with state := .enslavingS }
  if net.parents = 0 then linkEnslaved net up o s
  else
    match submitMany .censlave net.parents o s with
    | (s, false, _) => linkEnterFailed s
    | (s, true, _) => s

/-- `link_initialized` + `link_configure` (lines 1387-1485): a no-op
unless the link is still INITIALIZING; otherwise the profile is applied,
the DHCP/IPv4LL clients are created as the profile demands, and the
machine enters the enslaving stage. -/
def linkInitialized (net : Network) (up : Bool) (o : List Bool) (s : LinkS) :
    LinkS :=
  if s.state = .initializing then linkEnterEnslave net up o s else s

/-- `address_handler` (lines 331-360): decrement `addr_messages`, absorb
in FAILED, and advance to route configuration when the counter drains
(the advance is not state-guarded; the completion errno never changes
the state). -/
def addrCompletion (net : Network) (o : List Bool) (s : LinkS)
    (rest : List CKind) : LinkS :=
  let s := { s with q := rest, addrMessages := s.addrMessages - 1 }
  if s.state = .failed then s
  else if s.addrMessages = 0 then linkEnterSetRoutes net o s
  else s

/-- `route_handler` (lines 154-184): decrement `route_messages`, absorb
in FAILED, and enter CONFIGURED exactly when the counter drains while
the state is still SETTING_ROUTES (stale completions after a regression
are only counted; the completion errno never changes the state). -/
def routeCompletion (s : LinkS) (rest : List CKind) : LinkS :=
  let s := { s with q := rest, routeMessages := s.routeMessages - 1 }
  if s.state = .failed then s
  else if s.routeMessages = 0 ∧ s.state = .settingRoutes then
    linkEnterConfigured s
  else s

/-- `enslave_handler` (lines 1256-1286): decrement `enslaving`, absorb
in FAILED, enter FAILED on an error completion, and run `link_enslaved`
when the counter drains. -/
def enslaveCompletion (net : Network) (errno : Int) (up : Bool)
    (o : List Bool) (s : LinkS) (rest : List CKind) : LinkS :=
  let s := { s with q := rest, enslaving := s.enslaving - 1 }
  if s.state = .failed then s
  else if errno < 0 then linkEnterFailed s
  else if s.enslaving = 0 then linkEnslaved net up o s
  else s

/-- Deliver the oldest in-flight completion (the kernel adapter delivers
completions in submission order per link).  `errno` is the completion's
result code; `up`/`o` feed `link_enslaved` when an enslave completion
drains the counter. -/
def deliver (net : Network) (errno : Int) (up : Bool) (o : List Bool)
    (s : LinkS) : LinkS :=
  match s.q with
  | [] => s
  | .caddr :: rest => addrCompletion net o s rest
  | .croute :: rest => routeCompletion s rest
  | .censlave :: rest => enslaveCompletion net errno up o s rest
  | .cother :: rest => { s with q := rest }

/-- DHCP client events, as in `dhcp_handler` (lines 791-869). -/
inductive DhcpEv
  | noLease
  | expired
  | stop
  | ipChange
  | acquire
  | errEv
deriving DecidableEq, Repr

/-- IPv4LL client events, as in `ipv4ll_handler` (lines 983-1014). -/
inductive LLEv
  | bind
  | stop
  | conflict
  | errEv
deriving DecidableEq, Repr

/-- `dhcp_lease_lost` (lines 617-692), event level: submit the three
drops (their results are ignored), then — when `dhcp_mtu` is set and
the lease MTU differs from the original (`mtuDiff`) — submit the MTU
restore, entering FAILED (with the lease still referenced) when that
submission fails; on success clear the lease.  The hostname reset is a
bus call with no kernel completion.  Returns the state and whether the
caller may continue. -/
def dhcpLeaseLostE (net : Network) (mtuDiff : Bool) (o : List Bool)
    (s : LinkS) : LinkS × Bool × List Bool :=
  let s := push .cother (push .cother (push .cother s))
  if net.dhcpMtu = true ∧ mtuDiff = true then
    if oHead o then ({ push .cother s with lease := false }, true, o.tail)
    else (linkEnterFailed s, false, o.tail)
  else ({ s with lease := false }, true, o)

/-- `dhcp_lease_acquired` (lines 694-789), event level: fetch the lease
(`leaseOk` is the success of the `sd_dhcp_*_get_*` chain), store it,
optionally submit the lease MTU (`mtuPush` is true when `dhcp_mtu` is
set, the lease carries an MTU and the submission goes out; a failed
submission is only logged), and regress to address configuration. -/
def dhcpLeaseAcquiredE (net : Network) (leaseOk mtuPush : Bool)
    (o : List Bool) (s : LinkS) : LinkS × Bool :=
  if leaseOk = false then (s, false)
  else
    let s := { s with lease := true }
    let s := if mtuPush then push .cother s else s
    (linkEnterSetAddresses net o s, true)

/-- The `DHCP_EVENT_IP_ACQUIRE` arm of `dhcp_handler` (lines 843-859):
run the lease acquisition (entering FAILED when it errors out), then —
when an IPv4LL client exists — deprecate its bound address (one
`address_update` submission) or stop the client. -/
def dhcpAcquireArm (net : Network) (leaseOk mtuPush : Bool) (o : List Bool)
    (s : LinkS) : LinkS :=
  match dhcpLeaseAcquiredE net leaseOk mtuPush o s with
  | (s, false) => linkEnterFailed s
  | (s, true) =>
    if net.ipv4ll then
      if s.bound then push .cother s else s
    else s

/-- Tail of the `EXPIRED`/`STOP`/`IP_CHANGE` arm, after the lease-lost
cleanup succeeded (lines 823-840): re-acquire on IP_CHANGE (entering
FAILED when that errors out); on EXPIRED with IPv4LL enabled, start the
client when it is not running, else re-approve its bound address. -/
def dhcpReconfTail (net : Network) (e : DhcpEv)
    (leaseOk mtuPush llRunning : Bool) (o : List Bool) (s : LinkS) : LinkS :=
  if e = .ipChange then
    match dhcpLeaseAcquiredE net leaseOk mtuPush o s with
    | (s, false) => linkEnterFailed s
    | (s, true) => s
  else if e = .expired ∧ net.ipv4ll = true then
    if llRunning then
      if s.bound then push .cother s else s
    else s
  else s

/-- The shared `EXPIRED`/`STOP`/`IP_CHANGE` arm of `dhcp_handler`
(lines 806-842): refuse when the lease is critical, else run the
lease-lost cleanup when a lease is held, then the tail above. -/
def dhcpReconfArm (net : Network) (e : DhcpEv)
    (leaseOk mtuPush mtuDiff llRunning : Bool) (o : List Bool) (s : LinkS) :
    LinkS :=
  if net.dhcpCritical then s
  else
    match (if s.lease then dhcpLeaseLostE net mtuDiff o s
           else (s, true, o)) with
    | (s, false, _) => linkEnterFailed s
    | (s, true, o) => dhcpReconfTail net e leaseOk mtuPush llRunning o s

/-- `dhcp_handler` (lines 791-869): absorb events in FAILED; dispatch on
the event as the C switch does (unknown/negative events only log). -/
def dhcpStep (net : Network) (ev : DhcpEv)
    (leaseOk mtuPush mtuDiff llRunning : Bool) (o : List Bool) (s : LinkS) :
    LinkS :=
  if s.state = .failed then s
  else
    match ev with
    | .noLease => s
    | .errEv => s
    | .acquire => dhcpAcquireArm net leaseOk mtuPush o s
    | e => dhcpReconfArm net e leaseOk mtuPush mtuDiff llRunning o s

/-- `ipv4ll_handler` (lines 983-1014) together with the client-side
effect on the claimed address: BIND claims an address and regresses to
address configuration; STOP/CONFLICT drop the link-local address and
its route (two submissions whose results are ignored) and relinquish
the claim.  Note the handler performs no FAILED check. -/
def ipv4llStep (net : Network) (ev : LLEv) (o : List Bool) (s : LinkS) :
    LinkS :=
  match ev with
  | .errEv => s
  | .stop =>
    if s.bound then { push .cother (push .cother s) with bound := false }
    else s
  | .conflict =>
    if s.bound then { push .cother (push .cother s) with bound := false }
    else s
  | .bind => linkEnterSetAddresses net o { s with bound := true }

/-- One externally triggered step of the machine.  `initialized` is the
device-ready notification; `deliverEv` delivers the oldest in-flight
kernel completion; `dhcpEv`/`llEv` are sub-protocol callbacks;
`miscSubmit` covers the submissions issued outside the modelled
handlers (`link_set_mtu`, `address_update`, drops); `extFail` covers
every remaining `link_enter_failed` call site (carrier-handling and
client start/stop failures). -/
inductive Ev
  | initialized (up : Bool) (o : List Bool)
  | deliverEv (errno : Int) (up : Bool) (o : List Bool)
  | dhcpEv (ev : DhcpEv) (leaseOk mtuPush mtuDiff llRunning : Bool)
      (o : List Bool)
  | llEv (ev : LLEv) (o : List Bool)
  | miscSubmit
  | extFail

/-- Step function of the machine. -/
def step (net : Network) (e : Ev) (s : LinkS) : LinkS :=
  match e with
  | .initialized up o => linkInitialized net up o s
  | .deliverEv errno up o => deliver net errno up o s
  | .dhcpEv ev a b c d o => dhcpStep net ev a b c d o s
  | .llEv ev o => ipv4llStep net ev o s
  | .miscSubmit => push .cother s
  | .extFail => linkEnterFailed s

/-- Which events can occur: sub-protocol callbacks exist only once
`link_configure` has created the respective client (the profile flag is
set and the link has left INITIALIZING). -/
def evOk (net : Network) (s : LinkS) : Ev → Prop
  | .dhcpEv _ _ _ _ _ _ => net.dhcp = true ∧ s.state ≠ .initializing
  | .llEv _ _ => net.ipv4ll = true ∧ s.state ≠ .initializing
  | _ => True

/-- States reachable from the freshly created link. -/
inductive Reachable (net : Network) : LinkS → Prop
  | init : Reachable net {}
  | next {s : LinkS} {e : Ev} : Reachable net s → evOk net s e →
      Reachable net (step net e s)

/-! ### Counting and ordering of the in-flight queue -/

/-- Number of occurrences of kind `k` in a completion queue. -/
def kcount (k : CKind) : List CKind → Nat
  | [] => 0
  | j :: rest => (if j = k then 1 else 0) + kcount k rest

/-- In-flight address completions. -/
def cA (s : LinkS) : Nat := kcount .caddr s.q

/-- In-flight route completions. -/
def cR (s : LinkS) : Nat := kcount .croute s.q

/-- In-flight enslave completions. -/
def cE (s : LinkS) : Nat := kcount .censlave s.q

/-- Stage class of a completion kind: enslave completions are only ever
submitted before route completions, which are only ever submitted before
the address completions behind them in the queue; `cother` completions
are unclassified. -/
def cls : CKind → Option Nat
  | .censlave => some 0
  | .croute => some 1
  | .caddr => some 2
  | .cother => none

/-- The queue is ordered by stage class: no enslave completion sits
behind a route or address completion, and no route completion sits
behind an address completion. -/
def Ord (q : List CKind) : Prop := (q.filterMap cls).Pairwise (· ≤ ·)

/-- The bookkeeping part of the machine invariant: each pending counter
equals the number of in-flight completions of its kind (every submission
enqueues exactly one completion and increments the counter; every
delivery dequeues it and decrements), and the queue is stage-ordered. -/
structure Pre (s : LinkS) : Prop where
  hA : s.addrMessages = cA s
  hR : s.routeMessages = cR s
  hE : s.enslaving = cE s
  hOrd : Ord s.q

/-- The machine invariant.  Besides the bookkeeping, each state
constrains which completions can still be in flight; `failed` admits
anything. -/
structure Inv (net : Network) (s : LinkS) : Prop where
  pre : Pre s
  hInit : s.state = .initializing → cA s = 0 ∧ cR s = 0 ∧ cE s = 0
  hEns : s.state = .enslavingS → cA s = 0 ∧ cR s = 0
  hSetA : s.state = .settingAddresses → net.dhcp = false →
      net.ipv4ll = false → cE s = 0
  hSetR : s.state = .settingRoutes → cA s = 0 ∧ cE s = 0
  hConf : s.state = .configured → cA s = 0 ∧ cR s = 0 ∧ cE s = 0

/-! ### Queue lemmas -/

theorem kcount_append (k : CKind) (q r : List CKind) :
    kcount k (q ++ r) = kcount k q + kcount k r := by
  induction q with
  | nil => simp [kcount]
  | cons j rest ih =>
    show (if j = k then 1 else 0) + kcount k (rest ++ r) = _
    rw [ih]
    simp only [kcount]
    omega

theorem kcount_replicate (k j : CKind) (n : Nat) :
    kcount k (List.replicate n j) = if j = k then n else 0 := by
  induction n with
  | zero => simp [kcount]
  | succ n ih =>
    rw [List.replicate_succ]
    simp only [kcount, ih]
    split <;> omega

theorem not_mem_of_kcount_zero {k : CKind} {q : List CKind}
    (h : kcount k q = 0) : k ∉ q := by
  induction q with
  | nil => simp
  | cons j rest ih =>
    simp only [kcount] at h
    intro hm
    rcases List.mem_cons.mp hm with rfl | hm
    · simp at h
    · exact ih (by omega) hm

theorem mem_of_kcount_ne_zero {k : CKind} {q : List CKind}
    (h : kcount k q ≠ 0) : k ∈ q := by
  induction q with
  | nil => simp [kcount] at h
  | cons j rest ih =>
    simp only [kcount] at h
    by_cases hj : j = k
    · exact hj ▸ List.mem_cons_self j rest
    · simp only [hj, if_false] at h
      exact List.mem_cons_of_mem _ (ih (by omega))

theorem cls_le_two {k : CKind} {v : Nat} (h : cls k = some v) : v ≤ 2 := by
  cases k <;> simp [cls] at h <;> omega

theorem ord_nil : Ord [] := by simp [Ord]

theorem ord_append_single {q : List CKind} {k : CKind} {v : Nat}
    (hv : cls k = some v)
    (hall : ∀ j ∈ q, ∀ w, cls j = some w → w ≤ v) (h : Ord q) :
    Ord (q ++ [k]) := by
  unfold Ord at h ⊢
  rw [List.filterMap_append]
  refine List.pairwise_append.mpr ⟨h, ?_, ?_⟩
  · simp [hv]
  · intro a ha b hb
    simp only [List.filterMap_cons, hv, List.filterMap_nil] at hb
    rcases List.mem_singleton.mp hb with rfl
    obtain ⟨j, hj, hcls⟩ := List.mem_filterMap.mp ha
    exact hall j hj a hcls

theorem ord_push_other {q : List CKind} (h : Ord q) : Ord (q ++ [.cother]) := by
  unfold Ord at h ⊢
  rw [List.filterMap_append]
  simpa [cls]

theorem ord_push_addr {q : List CKind} (h : Ord q) : Ord (q ++ [.caddr]) :=
  ord_append_single (by simp [cls]) (fun _ _ _ hw => cls_le_two hw) h

theorem ord_push_route {q : List CKind} (hA : kcount .caddr q = 0)
    (h : Ord q) : Ord (q ++ [.croute]) := by
  refine ord_append_single (v := 1) (by simp [cls]) ?_ h
  intro j hj w hw
  cases j
  · exact absurd hj (not_mem_of_kcount_zero hA)
  · simp [cls] at hw; omega
  · simp [cls] at hw; omega
  · simp [cls] at hw

theorem ord_push_enslave {q : List CKind} (hA : kcount .caddr q = 0)
    (hR : kcount .croute q = 0) (h : Ord q) : Ord (q ++ [.censlave]) := by
  refine ord_append_single (v := 0) (by simp [cls]) ?_ h
  intro j hj w hw
  cases j
  · exact absurd hj (not_mem_of_kcount_zero hA)
  · exact absurd hj (not_mem_of_kcount_zero hR)
  · simp [cls] at hw; omega
  · simp [cls] at hw

theorem ord_tail {k : CKind} {q : List CKind} (h : Ord (k :: q)) : Ord q := by
  unfold Ord at h ⊢
  cases hc : cls k with
  | none => rwa [List.filterMap_cons, hc] at h
  | some v => rw [List.filterMap_cons, hc] at h; exact h.of_cons

theorem ord_cons_addr {q : List CKind} (h : Ord (.caddr :: q)) :
    kcount .croute q = 0 ∧ kcount .censlave q = 0 := by
  unfold Ord at h
  rw [List.filterMap_cons] at h
  simp only [cls] at h
  obtain ⟨hfore, _⟩ := List.pairwise_cons.mp h
  constructor
  · by_contra hne
    have hm : CKind.croute ∈ q := mem_of_kcount_ne_zero hne
    have h1 : (1 : Nat) ∈ q.filterMap cls :=
      List.mem_filterMap.mpr ⟨.croute, hm, by simp [cls]⟩
    have := hfore 1 h1; omega
  · by_contra hne
    have hm : CKind.censlave ∈ q := mem_of_kcount_ne_zero hne
    have h1 : (0 : Nat) ∈ q.filterMap cls :=
      List.mem_filterMap.mpr ⟨.censlave, hm, by simp [cls]⟩
    have := hfore 0 h1; omega

theorem ord_cons_route {q : List CKind} (h : Ord (.croute :: q)) :
    kcount .censlave q = 0 := by
  unfold Ord at h
  rw [List.filterMap_cons] at h
  simp only [cls] at h
  obtain ⟨hfore, _⟩ := List.pairwise_cons.mp h
  by_contra hne
  have hm : CKind.censlave ∈ q := mem_of_kcount_ne_zero hne
  have h1 : (0 : Nat) ∈ q.filterMap cls :=
    List.mem_filterMap.mpr ⟨.censlave, hm, by simp [cls]⟩
  have := hfore 0 h1; omega

/-! ### Push and submit lemmas -/

@[simp] theorem push_state (k : CKind) (s : LinkS) :
    (push k s).state = s.state := rfl

@[simp] theorem push_lease (k : CKind) (s : LinkS) :
    (push k s).lease = s.lease := rfl

@[simp] theorem push_bound (k : CKind) (s : LinkS) :
    (push k s).bound = s.bound := rfl

@[simp] theorem cA_push (k : CKind) (s : LinkS) :
    cA (push k s) = cA s + (if k = .caddr then 1 else 0) := by
  simp [cA, push, kcount_append, kcount]

@[simp] theorem cR_push (k : CKind) (s : LinkS) :
    cR (push k s) = cR s + (if k = .croute then 1 else 0) := by
  simp [cR, push, kcount_append, kcount]

@[simp] theorem cE_push (k : CKind) (s : LinkS) :
    cE (push k s) = cE s + (if k = .censlave then 1 else 0) := by
  simp [cE, push, kcount_append, kcount]

@[simp] theorem cA_setState (st : LinkState) (s : LinkS) :
    cA { s with state := st } = cA s := rfl

@[simp] theorem cR_setState (st : LinkState) (s : LinkS) :
    cR { s with state := st } = cR s := rfl

@[simp] theorem cE_setState (st : LinkState) (s : LinkS) :
    cE { s with state := st } = cE s := rfl

@[simp] theorem cA_setLease (b : Bool) (s : LinkS) :
    cA { s with lease := b } = cA s := rfl

@[simp] theorem cR_setLease (b : Bool) (s : LinkS) :
    cR { s with lease := b } = cR s := rfl

@[simp] theorem cE_setLease (b : Bool) (s : LinkS) :
    cE { s with lease := b } = cE s := rfl

@[simp] theorem cA_setBound (b : Bool) (s : LinkS) :
    cA { s with bound := b } = cA s := rfl

@[simp] theorem cR_setBound (b : Bool) (s : LinkS) :
    cR { s with bound := b } = cR s := rfl

@[simp] theorem cE_setBound (b : Bool) (s : LinkS) :
    cE { s with bound := b } = cE s := rfl

theorem pre_push_other {s : LinkS} (h : Pre s) : Pre (push .cother s) := by
  refine ⟨?_, ?_, ?_, ?_⟩
  · simp [push, h.hA, cA, kcount_append, kcount]
  · simp [push, h.hR, cR, kcount_append, kcount]
  · simp [push, h.hE, cE, kcount_append, kcount]
  · exact ord_push_other h.hOrd

theorem pre_push_addr {s : LinkS} (h : Pre s) : Pre (push .caddr s) := by
  refine ⟨?_, ?_, ?_, ?_⟩
  · simp [push, h.hA, cA, kcount_append, kcount]
  · simp [push, h.hR, cR, kcount_append, kcount]
  · simp [push, h.hE, cE, kcount_append, kcount]
  · exact ord_push_addr h.hOrd

theorem pre_push_route {s : LinkS} (h : Pre s) (h0 : cA s = 0) :
    Pre (push .croute s) := by
  refine ⟨?_, ?_, ?_, ?_⟩
  · simp [push, h.hA, cA, kcount_append, kcount]
  · simp [push, h.hR, cR, kcount_append, kcount]
  · simp [push, h.hE, cE, kcount_append, kcount]
  · exact ord_push_route h0 h.hOrd

theorem pre_push_enslave {s : LinkS} (h : Pre s) (h0 : cA s = 0)
    (h1 : cR s = 0) : Pre (push .censlave s) := by
  refine ⟨?_, ?_, ?_, ?_⟩
  · simp [push, h.hA, cA, kcount_append, kcount]
  · simp [push, h.hR, cR, kcount_append, kcount]
  · simp [push, h.hE, cE, kcount_append, kcount]
  · exact ord_push_enslave h0 h1 h.hOrd

/-- Iterated successful submission of kind `k`. -/
def pushN (k : CKind) : Nat → LinkS → LinkS
  | 0, s => s
  | j + 1, s => pushN k j (push k s)

@[simp] theorem pushN_state (k : CKind) (j : Nat) (s : LinkS) :
    (pushN k j s).state = s.state := by
  induction j generalizing s with
  | zero => rfl
  | succ j ih => simp [pushN, ih]

@[simp] theorem pushN_lease (k : CKind) (j : Nat) (s : LinkS) :
    (pushN k j s).lease = s.lease := by
  induction j generalizing s with
  | zero => rfl
  | succ j ih => simp [pushN, ih]

@[simp] theorem pushN_bound (k : CKind) (j : Nat) (s : LinkS) :
    (pushN k j s).bound = s.bound := by
  induction j generalizing s with
  | zero => rfl
  | succ j ih => simp [pushN, ih]

@[simp] theorem cA_pushN (k : CKind) (j : Nat) (s : LinkS) :
    cA (pushN k j s) = cA s + (if k = .caddr then j else 0) := by
  induction j generalizing s with
  | zero => simp [pushN]
  | succ j ih => simp [pushN, ih]; split <;> omega

@[simp] theorem cR_pushN (k : CKind) (j : Nat) (s : LinkS) :
    cR (pushN k j s) = cR s + (if k = .croute then j else 0) := by
  induction j generalizing s with
  | zero => simp [pushN]
  | succ j ih => simp [pushN, ih]; split <;> omega

@[simp] theorem cE_pushN (k : CKind) (j : Nat) (s : LinkS) :
    cE (pushN k j s) = cE s + (if k = .censlave then j else 0) := by
  induction j generalizing s with
  | zero => simp [pushN]
  | succ j ih => simp [pushN, ih]; split <;> omega

theorem pre_pushN_addr {s : LinkS} (j : Nat) (h : Pre s) :
    Pre (pushN .caddr j s) := by
  induction j generalizing s with
  | zero => exact h
  | succ j ih => exact ih (pre_push_addr h)

theorem pre_pushN_route {s : LinkS} (j : Nat) (h : Pre s) (h0 : cA s = 0) :
    Pre (pushN .croute j s) := by
  induction j generalizing s with
  | zero => exact h
  | succ j ih =>
    refine ih (pre_push_route h h0) ?_
    simp [h0]

theorem pre_pushN_enslave {s : LinkS} (j : Nat) (h : Pre s) (h0 : cA s = 0)
    (h1 : cR s = 0) : Pre (pushN .censlave j s) := by
  induction j generalizing s with
  | zero => exact h
  | succ j ih =>
    refine ih (pre_push_enslave h h0 h1) ?_ ?_ <;> simp [h0, h1]

theorem submitMany_fst (k : CKind) (n : Nat) (o : List Bool) (s : LinkS) :
    ∃ j, (submitMany k n o s).1 = pushN k j s := by
  induction n generalizing o s with
  | zero => exact ⟨0, rfl⟩
  | succ n ih =>
    unfold submitMany
    by_cases h : oHead o = true
    · rw [if_pos h]
      obtain ⟨j, hj⟩ := ih o.tail (push k s)
      exact ⟨j + 1, hj⟩
    · rw [if_neg (by simpa using h)]
      exact ⟨0, rfl⟩

/-! ### Invariant constructors -/

theorem inv_mk_failed {net : Network} {s : LinkS} (h : Pre s)
    (hs : s.state = .failed) : Inv net s := by
  refine ⟨h, ?_, ?_, ?_, ?_, ?_⟩ <;> intro h' <;> rw [hs] at h' <;> simp at h'

theorem inv_mk_configured {net : Network} {s : LinkS} (h : Pre s)
    (hs : s.state = .configured) (hz : cA s = 0 ∧ cR s = 0 ∧ cE s = 0) :
    Inv net s := by
  refine ⟨h, ?_, ?_, ?_, ?_, fun _ => hz⟩ <;> intro h' <;> rw [hs] at h' <;>
    simp at h'

theorem inv_mk_settingRoutes {net : Network} {s : LinkS} (h : Pre s)
    (hs : s.state = .settingRoutes) (hz : cA s = 0 ∧ cE s = 0) : Inv net s := by
  refine ⟨h, ?_, ?_, ?_, fun _ => hz, ?_⟩ <;> intro h' <;> rw [hs] at h' <;>
    simp at h'

theorem inv_mk_settingAddresses {net : Network} {s : LinkS} (h : Pre s)
    (hs : s.state = .settingAddresses)
    (hz : net.dhcp = false → net.ipv4ll = false → cE s = 0) : Inv net s := by
  refine ⟨h, ?_, ?_, fun _ => hz, ?_, ?_⟩ <;> intro h' <;> rw [hs] at h' <;>
    simp at h'

theorem inv_mk_enslaving {net : Network} {s : LinkS} (h : Pre s)
    (hs : s.state = .enslavingS) (hz : cA s = 0 ∧ cR s = 0) : Inv net s := by
  refine ⟨h, ?_, fun _ => hz, ?_, ?_, ?_⟩ <;> intro h' <;> rw [hs] at h' <;>
    simp at h'

theorem inv_enterFailed {net : Network} {s : LinkS} (h : Pre s) :
    Inv net (linkEnterFailed s) := by
  refine inv_mk_failed ?_ rfl
  exact ⟨h.hA, h.hR, h.hE, h.hOrd⟩

theorem inv_push_other {net : Network} {s : LinkS} (h : Inv net s) :
    Inv net (push .cother s) := by
  refine ⟨pre_push_other h.pre, ?_, ?_, ?_, ?_, ?_⟩ <;>
    simp only [push_state, cA_push, cR_push, cE_push]
  · intro h'; have := h.hInit h'; simp_all
  · intro h'; have := h.hEns h'; simp_all
  · intro h' hd hl; have := h.hSetA h' hd hl; simp_all
  · intro h'; have := h.hSetR h'; simp_all
  · intro h'; have := h.hConf h'; simp_all

theorem inv_set_lease {net : Network} {s : LinkS} (h : Inv net s) (b : Bool) :
    Inv net { s with lease := b } := by
  refine ⟨⟨h.pre.hA, h.pre.hR, h.pre.hE, h.pre.hOrd⟩, ?_, ?_, ?_, ?_, ?_⟩
  · exact h.hInit
  · exact h.hEns
  · exact h.hSetA
  · exact h.hSetR
  · exact h.hConf

theorem inv_set_bound {net : Network} {s : LinkS} (h : Inv net s) (b : Bool) :
    Inv net { s with bound := b } := by
  refine ⟨⟨h.pre.hA, h.pre.hR, h.pre.hE, h.pre.hOrd⟩, ?_, ?_, ?_, ?_, ?_⟩
  · exact h.hInit
  · exact h.hEns
  · exact h.hSetA
  · exact h.hSetR
  · exact h.hConf

/-- `link_enter_set_routes` establishes the invariant whenever no
address, route or enslave completion is in flight — which is the case at
each of its call sites. -/
theorem inv_enterSetRoutes {net : Network} (o : List Bool) {s : LinkS}
    (h : Pre s) (hz : cA s = 0 ∧ cR s = 0 ∧ cE s = 0) :
    Inv net (linkEnterSetRoutes net o s) := by
  obtain ⟨hA0, hR0, hE0⟩ := hz
  unfold linkEnterSetRoutes
  simp only []
  have hpre1 : Pre { s with state := LinkState.settingRoutes } :=
    ⟨h.hA, h.hR, h.hE, h.hOrd⟩
  have hA1 : cA { s with state := LinkState.settingRoutes } = 0 := hA0
  have hR1 : cR { s with state := LinkState.settingRoutes } = 0 := hR0
  have hE1 : cE { s with state := LinkState.settingRoutes } = 0 := hE0
  split
  · exact inv_mk_configured ⟨hpre1.hA, hpre1.hR, hpre1.hE, hpre1.hOrd⟩ rfl
      ⟨hA1, hR1, hE1⟩
  · obtain ⟨j, hj⟩ :=
      submitMany_fst .croute net.staticRoutes o
        { s with state := LinkState.settingRoutes }
    rcases hsub : submitMany .croute net.staticRoutes o
        { s with state := LinkState.settingRoutes } with ⟨s2, b, o2⟩
    rw [hsub] at hj
    simp only at hj
    have hpre2 : Pre s2 := hj ▸ pre_pushN_route j hpre1 hA1
    have hA2 : cA s2 = 0 := by simp [hj, hA1]
    have hE2 : cE s2 = 0 := by simp [hj, hE1]
    have hst2 : s2.state = LinkState.settingRoutes := by simp [hj]
    cases b
    · exact inv_enterFailed hpre2
    · simp only []
      split
      · rename_i s3 o3 hm
        split at hm
        · split at hm
          · injection hm with h1 hrest
            injection hrest with h2 h3
            exact absurd h2 (by decide)
          · injection hm with h1 hrest
            subst h1
            exact inv_enterFailed hpre2
        · injection hm with h1 hrest
          injection hrest with h2 h3
          exact absurd h2 (by decide)
      · rename_i s3 o3 hm
        have key : Pre s3 ∧ cA s3 = 0 ∧ cE s3 = 0 ∧
            s3.state = LinkState.settingRoutes ∧ s3.lease = s2.lease := by
          split at hm
          · rename_i hc
            split at hm
            · injection hm with h1 hrest
              subst h1
              exact ⟨pre_push_route hpre2 hA2, by simp [hA2], by simp [hE2],
                by simp [hst2], rfl⟩
            · injection hm with h1 hrest
              injection hrest with h2 h3
              exact absurd h2 (by decide)
          · injection hm with h1 hrest
            subst h1
            exact ⟨hpre2, hA2, hE2, hst2, rfl⟩
        obtain ⟨hpre3, hA3, hE3, hst3, -⟩ := key
        split
        · split
          · have hpre4 : Pre (push .croute s3) := pre_push_route hpre3 hA3
            split
            · exact inv_mk_settingRoutes (pre_push_route hpre4 (by simp [hA3]))
                (by simp [hst3]) (by simp [hA3, hE3])
            · exact inv_enterFailed hpre4
          · exact inv_mk_settingRoutes hpre3 hst3 ⟨hA3, hE3⟩
        · exact inv_mk_settingRoutes hpre3 hst3 ⟨hA3, hE3⟩

/-- `link_enter_set_addresses` establishes the invariant.  The zero
hypothesis `hz` is needed only when the short-cut to
`link_enter_set_routes` can fire, which its callers rule out unless no
completion is in flight; `hE` transports the SETTING_ADDRESSES clause. -/
theorem inv_enterSetAddresses {net : Network} (o : List Bool) {s : LinkS}
    (h : Pre s)
    (hE : net.dhcp = false → net.ipv4ll = false → cE s = 0)
    (hz : net.staticAddrs = 0 ∧ s.lease = false ∧
      (net.ipv4ll = false ∨ s.bound = false) →
      cA s = 0 ∧ cR s = 0 ∧ cE s = 0) :
    Inv net (linkEnterSetAddresses net o s) := by
  unfold linkEnterSetAddresses
  simp only []
  have hpre1 : Pre { s with state := LinkState.settingAddresses } :=
    ⟨h.hA, h.hR, h.hE, h.hOrd⟩
  split
  · rename_i hcond
    refine inv_enterSetRoutes o hpre1 ?_
    exact hz (by simpa using hcond)
  · obtain ⟨j, hj⟩ :=
      submitMany_fst .caddr net.staticAddrs o
        { s with state := LinkState.settingAddresses }
    rcases hsub : submitMany .caddr net.staticAddrs o
        { s with state := LinkState.settingAddresses } with ⟨s2, b, o2⟩
    rw [hsub] at hj
    simp only at hj
    have hpre2 : Pre s2 := hj ▸ pre_pushN_addr j hpre1
    have hE2 : net.dhcp = false → net.ipv4ll = false → cE s2 = 0 := by
      intro hd hl
      rw [hj]
      simpa using hE hd hl
    have hst2 : s2.state = LinkState.settingAddresses := by simp [hj]
    cases b
    · exact inv_enterFailed hpre2
    · simp only []
      split
      · rename_i s3 o3 hm
        split at hm
        · split at hm
          · injection hm with h1 hrest
            injection hrest with h2 h3
            exact absurd h2 (by decide)
          · injection hm with h1 hrest
            subst h1
            exact inv_enterFailed hpre2
        · injection hm with h1 hrest
          injection hrest with h2 h3
          exact absurd h2 (by decide)
      · rename_i s3 o3 hm
        have key : Pre s3 ∧
            (net.dhcp = false → net.ipv4ll = false → cE s3 = 0) ∧
            s3.state = LinkState.settingAddresses := by
          split at hm
          · rename_i hc
            split at hm
            · injection hm with h1 hrest
              subst h1
              refine ⟨pre_push_addr hpre2, ?_, by simp [hst2]⟩
              intro hd hl
              simp [hE2 hd hl]
            · injection hm with h1 hrest
              injection hrest with h2 h3
              exact absurd h2 (by decide)
          · injection hm with h1 hrest
            subst h1
            exact ⟨hpre2, hE2, hst2⟩
        obtain ⟨hpre3, hE3, hst3⟩ := key
        split
        · split
          · refine inv_mk_settingAddresses (pre_push_addr hpre3)
              (by simp [hst3]) ?_
            intro hd hl
            simp [hE3 hd hl]
          · exact inv_enterFailed hpre3
        · exact inv_mk_settingAddresses hpre3 hst3 hE3

theorem inv_linkEnslavedCont {net : Network} {o : List Bool} {s : LinkS}
    (hInv : Inv net s)
    (hz : net.dhcp = false → net.ipv4ll = false →
      cA s = 0 ∧ cR s = 0 ∧ cE s = 0) :
    Inv net (linkEnslavedCont net o s) := by
  unfold linkEnslavedCont
  split
  · rename_i hc
    obtain ⟨hd, hl⟩ := hc
    obtain ⟨hA0, hR0, hE0⟩ := hz hd hl
    exact inv_enterSetAddresses o hInv.pre (fun _ _ => hE0)
      (fun _ => ⟨hA0, hR0, hE0⟩)
  · exact hInv

theorem inv_linkEnslaved {net : Network} {up : Bool} {o : List Bool}
    {s : LinkS} (hInv : Inv net s)
    (hz : net.dhcp = false → net.ipv4ll = false →
      cA s = 0 ∧ cR s = 0 ∧ cE s = 0) :
    Inv net (linkEnslaved net up o s) := by
  unfold linkEnslaved
  split
  · exact inv_linkEnslavedCont hInv hz
  · split
    · refine inv_linkEnslavedCont (inv_push_other hInv) ?_
      intro hd hl
      obtain ⟨hA0, hR0, hE0⟩ := hz hd hl
      simp [hA0, hR0, hE0]
    · exact inv_enterFailed hInv.pre

theorem inv_linkInitialized {net : Network} {up : Bool} {o : List Bool}
    {s : LinkS} (hInv : Inv net s) :
    Inv net (linkInitialized net up o s) := by
  unfold linkInitialized
  split
  · rename_i hs
    obtain ⟨hA0, hR0, hE0⟩ := hInv.hInit hs
    unfold linkEnterEnslave
    simp only []
    have hpre1 : Pre { s with state := LinkState.enslavingS } :=
      ⟨hInv.pre.hA, hInv.pre.hR, hInv.pre.hE, hInv.pre.hOrd⟩
    split
    · refine inv_linkEnslaved (inv_mk_enslaving hpre1 rfl ⟨hA0, hR0⟩) ?_
      intro _ _
      exact ⟨hA0, hR0, hE0⟩
    · obtain ⟨j, hj⟩ :=
        submitMany_fst .censlave net.parents o
          { s with state := LinkState.enslavingS }
      rcases hsub : submitMany .censlave net.parents o
          { s with state := LinkState.enslavingS } with ⟨s2, b, o2⟩
      rw [hsub] at hj
      simp only at hj
      have hpre2 : Pre s2 := hj ▸ pre_pushN_enslave j hpre1 hA0 hR0
      cases b
      · exact inv_enterFailed hpre2
      · refine inv_mk_enslaving hpre2 (by simp [hj]) ?_
        constructor
        · simp [hj, hA0]
        · simp [hj, hR0]
  · exact hInv

/-- Delivering the oldest in-flight completion preserves the invariant.
The crucial facts come from the queue ordering: an address completion at
the front means no route or enslave completion is pending at all, and a
route completion at the front means no enslave completion is pending. -/
theorem inv_deliver {net : Network} (errno : Int) (up : Bool) (o : List Bool)
    {s : LinkS} (hInv : Inv net s) : Inv net (deliver net errno up o s) := by
  unfold deliver
  rcases hq : s.q with - | ⟨k, rest⟩
  · exact hInv
  · have hOrdc : Ord (k :: rest) := hq ▸ hInv.pre.hOrd
    have hOrd' : Ord rest := ord_tail hOrdc
    cases k
    · -- address completion at the front
      obtain ⟨hzR, hzE⟩ := ord_cons_addr hOrdc
      have hcA : cA s = kcount .caddr rest + 1 := by
        rw [cA, hq]; simp [kcount]; try omega
      have hcR : cR s = kcount .croute rest := by
        rw [cR, hq]; simp [kcount]
      have hcE : cE s = kcount .censlave rest := by
        rw [cE, hq]; simp [kcount]
      unfold addrCompletion
      simp only []
      have hpre' : Pre { s with
          q := rest,
          addrMessages := s.addrMessages - 1 } := by
        refine ⟨?_, ?_, ?_, hOrd'⟩
        · show s.addrMessages - 1 = kcount .caddr rest
          have h1 := hInv.pre.hA
          omega
        · show s.routeMessages = kcount .croute rest
          have h1 := hInv.pre.hR
          omega
        · show s.enslaving = kcount .censlave rest
          have h1 := hInv.pre.hE
          omega
      split
      · rename_i hf
        exact inv_mk_failed hpre' hf
      · split
        · rename_i hz
          have hz' : s.addrMessages - 1 = 0 := hz
          have hA' : s.addrMessages - 1 = kcount .caddr rest := hpre'.hA
          refine inv_enterSetRoutes o hpre' ?_
          exact ⟨by show kcount .caddr rest = 0; omega, hzR, hzE⟩
        · rename_i hnf hnz
          refine ⟨hpre', ?_, ?_, ?_, ?_, ?_⟩
          · intro h'
            have := hInv.hInit h'
            omega
          · intro h'
            have := hInv.hEns h'
            omega
          · intro _ _ _
            exact hzE
          · intro h'
            have := (hInv.hSetR h').1
            omega
          · intro h'
            have := (hInv.hConf h').1
            omega
    · -- route completion at the front
      have hzE := ord_cons_route hOrdc
      have hcA : cA s = kcount .caddr rest := by
        rw [cA, hq]; simp [kcount]
      have hcR : cR s = kcount .croute rest + 1 := by
        rw [cR, hq]; simp [kcount]; try omega
      have hcE : cE s = kcount .censlave rest := by
        rw [cE, hq]; simp [kcount]
      unfold routeCompletion
      simp only []
      have hpre' : Pre { s with
          q := rest,
          routeMessages := s.routeMessages - 1 } := by
        refine ⟨?_, ?_, ?_, hOrd'⟩
        · show s.addrMessages = kcount .caddr rest
          have h1 := hInv.pre.hA
          omega
        · show s.routeMessages - 1 = kcount .croute rest
          have h1 := hInv.pre.hR
          omega
        · show s.enslaving = kcount .censlave rest
          have h1 := hInv.pre.hE
          omega
      split
      · rename_i hf
        exact inv_mk_failed hpre' hf
      · split
        · rename_i hza
          obtain ⟨hz0, hsr⟩ := hza
          have hz0' : s.routeMessages - 1 = 0 := hz0
          have hsr' : s.state = LinkState.settingRoutes := hsr
          have hA0 := (hInv.hSetR hsr').1
          have hR' : s.routeMessages - 1 = kcount .croute rest := hpre'.hR
          refine inv_mk_configured
            (⟨hpre'.hA, hpre'.hR, hpre'.hE, hpre'.hOrd⟩) rfl ?_
          refine ⟨?_, ?_, hzE⟩
          · show kcount .caddr rest = 0
            omega
          · show kcount .croute rest = 0
            omega
        · rename_i hnf hnz
          refine ⟨hpre', ?_, ?_, ?_, ?_, ?_⟩
          · intro h'
            have := (hInv.hInit h').2.1
            omega
          · intro h'
            have := (hInv.hEns h').2
            omega
          · intro _ _ _
            exact hzE
          · intro h'
            have h'' : s.state = LinkState.settingRoutes := h'
            have := hInv.hSetR h''
            exact ⟨by show kcount .caddr rest = 0; omega, hzE⟩
          · intro h'
            have := (hInv.hConf h').2.1
            omega
    · -- enslave completion at the front
      have hcA : cA s = kcount .caddr rest := by
        rw [cA, hq]; simp [kcount]
      have hcR : cR s = kcount .croute rest := by
        rw [cR, hq]; simp [kcount]
      have hcE : cE s = kcount .censlave rest + 1 := by
        rw [cE, hq]; simp [kcount]; try omega
      unfold enslaveCompletion
      simp only []
      have hpre' : Pre { s with
          q := rest,
          enslaving := s.enslaving - 1 } := by
        refine ⟨?_, ?_, ?_, hOrd'⟩
        · show s.addrMessages = kcount .caddr rest
          have h1 := hInv.pre.hA
          omega
        · show s.routeMessages = kcount .croute rest
          have h1 := hInv.pre.hR
          omega
        · show s.enslaving - 1 = kcount .censlave rest
          have h1 := hInv.pre.hE
          omega
      split
      · rename_i hf
        exact inv_mk_failed hpre' hf
      · rename_i hnf
        split
        · exact inv_enterFailed hpre'
        · split
          · rename_i hz0
            have hz0' : s.enslaving - 1 = 0 := hz0
            have hE' : s.enslaving - 1 = kcount .censlave rest := hpre'.hE
            have hInv' : Inv net { s with
                q := rest,
                enslaving := s.enslaving - 1 } := by
              refine ⟨hpre', ?_, ?_, ?_, ?_, ?_⟩
              · intro h'
                have := (hInv.hInit h').2.2
                omega
              · intro h'
                have := hInv.hEns h'
                exact ⟨by show kcount .caddr rest = 0; omega,
                  by show kcount .croute rest = 0; omega⟩
              · intro _ _ _
                show kcount .censlave rest = 0
                omega
              · intro h'
                have h'' : s.state = LinkState.settingRoutes := h'
                have := hInv.hSetR h''
                exact ⟨by show kcount .caddr rest = 0; omega,
                  by show kcount .censlave rest = 0; omega⟩
              · intro h'
                have h'' : s.state = LinkState.configured := h'
                have := hInv.hConf h''
                refine ⟨?_, ?_, ?_⟩ <;>
                  first
                  | (show kcount .caddr rest = 0; omega)
                  | (show kcount .croute rest = 0; omega)
                  | (show kcount .censlave rest = 0; omega)
            refine inv_linkEnslaved hInv' ?_
            intro hd hl
            refine ⟨?_, ?_, ?_⟩
            · show kcount .caddr rest = 0
              rcases hstate : s.state
              · have := (hInv.hInit hstate).2.2
                omega
              · have := (hInv.hEns hstate).1
                omega
              · have := hInv.hSetA hstate hd hl
                omega
              · have := (hInv.hSetR hstate).2
                omega
              · have := (hInv.hConf hstate).2.2
                omega
              · exact absurd hstate hnf
            · show kcount .croute rest = 0
              rcases hstate : s.state
              · have := (hInv.hInit hstate).2.2
                omega
              · have := (hInv.hEns hstate).2
                omega
              · have := hInv.hSetA hstate hd hl
                omega
              · have := (hInv.hSetR hstate).2
                omega
              · have := (hInv.hConf hstate).2.2
                omega
              · exact absurd hstate hnf
            · show kcount .censlave rest = 0
              omega
          · rename_i hz
            refine ⟨hpre', ?_, ?_, ?_, ?_, ?_⟩
            · intro h'
              have := (hInv.hInit h').2.2
              omega
            · intro h'
              have := hInv.hEns h'
              exact ⟨by show kcount .caddr rest = 0; omega,
                by show kcount .croute rest = 0; omega⟩
            · intro h' hd hl
              have := hInv.hSetA h' hd hl
              omega
            · intro h'
              have := (hInv.hSetR h').2
              omega
            · intro h'
              have := (hInv.hConf h').2.2
              omega
    · -- a log-only completion at the front
      have hcA : cA s = kcount .caddr rest := by
        rw [cA, hq]; simp [kcount]
      have hcR : cR s = kcount .croute rest := by
        rw [cR, hq]; simp [kcount]
      have hcE : cE s = kcount .censlave rest := by
        rw [cE, hq]; simp [kcount]
      have hpre' : Pre { s with q := rest } := by
        refine ⟨?_, ?_, ?_, hOrd'⟩
        · show s.addrMessages = kcount .caddr rest
          have h1 := hInv.pre.hA
          omega
        · show s.routeMessages = kcount .croute rest
          have h1 := hInv.pre.hR
          omega
        · show s.enslaving = kcount .censlave rest
          have h1 := hInv.pre.hE
          omega
      refine ⟨hpre', ?_, ?_, ?_, ?_, ?_⟩
      · intro h'
        have := hInv.hInit h'
        refine ⟨?_, ?_, ?_⟩ <;>
          first
          | (show kcount .caddr rest = 0; omega)
          | (show kcount .croute rest = 0; omega)
          | (show kcount .censlave rest = 0; omega)
      · intro h'
        have := hInv.hEns h'
        exact ⟨by show kcount .caddr rest = 0; omega,
          by show kcount .croute rest = 0; omega⟩
      · intro h' hd hl
        have := hInv.hSetA h' hd hl
        show kcount .censlave rest = 0
        omega
      · intro h'
        have := hInv.hSetR h'
        exact ⟨by show kcount .caddr rest = 0; omega,
          by show kcount .censlave rest = 0; omega⟩
      · intro h'
        have := hInv.hConf h'
        refine ⟨?_, ?_, ?_⟩ <;>
          first
          | (show kcount .caddr rest = 0; omega)
          | (show kcount .croute rest = 0; omega)
          | (show kcount .censlave rest = 0; omega)

/-- The regression to SETTING_ADDRESSES performed by
`dhcp_lease_acquired` preserves the invariant: the stored lease blocks
the short-cut, and the profile has DHCP enabled. -/
theorem inv_acquireSetAddresses {net : Network} (mtuPush : Bool)
    (o : List Bool) {s : LinkS} (hInv : Inv net s) (hd : net.dhcp = true) :
    Inv net (linkEnterSetAddresses net o
      (if mtuPush = true then push .cother { s with lease := true }
       else { s with lease := true })) := by
  have hS2 : Inv net (if mtuPush = true then push .cother { s with lease := true }
      else { s with lease := true }) := by
    split
    · exact inv_push_other (inv_set_lease hInv true)
    · exact inv_set_lease hInv true
  have hlease : (if mtuPush = true then push .cother { s with lease := true }
      else { s with lease := true }).lease = true := by
    split <;> rfl
  refine inv_enterSetAddresses o hS2.pre ?_ ?_
  · intro hdf _
    rw [hd] at hdf
    exact absurd hdf (by decide)
  · rintro ⟨-, hl, -⟩
    rw [hlease] at hl
    exact absurd hl (by decide)

/-- The two possible outcomes of `dhcp_lease_acquired`. -/
theorem dhcpLeaseAcquiredE_cases (net : Network) (leaseOk mtuPush : Bool)
    (o : List Bool) (s : LinkS) :
    (leaseOk = false ∧ dhcpLeaseAcquiredE net leaseOk mtuPush o s = (s, false)) ∨
    (leaseOk = true ∧ dhcpLeaseAcquiredE net leaseOk mtuPush o s =
      (linkEnterSetAddresses net o
        (if mtuPush = true then push .cother { s with lease := true }
         else { s with lease := true }), true)) := by
  unfold dhcpLeaseAcquiredE
  by_cases h : leaseOk = false
  · rw [if_pos h]
    exact Or.inl ⟨h, rfl⟩
  · rw [if_neg h]
    refine Or.inr ⟨?_, rfl⟩
    revert h
    cases leaseOk <;> simp

/-- The three possible outcomes of `dhcp_lease_lost`. -/
theorem dhcpLeaseLostE_cases (net : Network) (mtuDiff : Bool) (o : List Bool)
    (s : LinkS) :
    dhcpLeaseLostE net mtuDiff o s =
      ({ push .cother (push .cother (push .cother s)) with lease := false },
        true, o) ∨
    dhcpLeaseLostE net mtuDiff o s =
      ({ push .cother (push .cother (push .cother (push .cother s))) with
          lease := false }, true, o.tail) ∨
    dhcpLeaseLostE net mtuDiff o s =
      (linkEnterFailed (push .cother (push .cother (push .cother s))),
        false, o.tail) := by
  unfold dhcpLeaseLostE
  split
  · split
    · right; left; rfl
    · right; right; rfl
  · left; rfl

theorem inv_dhcpAcquireArm {net : Network} (leaseOk mtuPush : Bool)
    (o : List Bool) {s : LinkS} (hInv : Inv net s) (hd : net.dhcp = true) :
    Inv net (dhcpAcquireArm net leaseOk mtuPush o s) := by
  unfold dhcpAcquireArm
  rcases dhcpLeaseAcquiredE_cases net leaseOk mtuPush o s with
    ⟨-, heq⟩ | ⟨-, heq⟩
  · rw [heq]
    exact inv_enterFailed hInv.pre
  · rw [heq]
    simp only []
    have hSA := inv_acquireSetAddresses mtuPush o hInv hd
    by_cases hmp : mtuPush = true
    · rw [if_pos hmp] at hSA ⊢
      split
      · split
        · exact inv_push_other hSA
        · exact hSA
      · exact hSA
    · rw [if_neg hmp] at hSA ⊢
      split
      · split
        · exact inv_push_other hSA
        · exact hSA
      · exact hSA

theorem inv_dhcpReconfTail {net : Network} (e : DhcpEv)
    (leaseOk mtuPush llRunning : Bool) (o : List Bool) {s : LinkS}
    (hInv : Inv net s) (hd : net.dhcp = true) :
    Inv net (dhcpReconfTail net e leaseOk mtuPush llRunning o s) := by
  unfold dhcpReconfTail
  split
  · rcases dhcpLeaseAcquiredE_cases net leaseOk mtuPush o s with
      ⟨-, heq⟩ | ⟨-, heq⟩
    · rw [heq]
      exact inv_enterFailed hInv.pre
    · rw [heq]
      exact inv_acquireSetAddresses mtuPush o hInv hd
  · split
    · split
      · split
        · exact inv_push_other hInv
        · exact hInv
      · exact hInv
    · exact hInv

theorem inv_dhcpReconfArm {net : Network} (e : DhcpEv)
    (leaseOk mtuPush mtuDiff llRunning : Bool) (o : List Bool) {s : LinkS}
    (hInv : Inv net s) (hd : net.dhcp = true) :
    Inv net (dhcpReconfArm net e leaseOk mtuPush mtuDiff llRunning o s) := by
  unfold dhcpReconfArm
  split
  · exact hInv
  · by_cases hl : s.lease = true
    · rw [if_pos hl]
      rcases dhcpLeaseLostE_cases net mtuDiff o s with heq | heq | heq
      · rw [heq]
        exact inv_dhcpReconfTail e leaseOk mtuPush llRunning o
          (inv_set_lease
            (inv_push_other (inv_push_other (inv_push_other hInv))) false) hd
      · rw [heq]
        exact inv_dhcpReconfTail e leaseOk mtuPush llRunning o.tail
          (inv_set_lease
            (inv_push_other (inv_push_other (inv_push_other
              (inv_push_other hInv)))) false) hd
      · rw [heq]
        have hp : Pre (push .cother (push .cother (push .cother s))) :=
          pre_push_other (pre_push_other (pre_push_other hInv.pre))
        exact inv_enterFailed ⟨hp.hA, hp.hR, hp.hE, hp.hOrd⟩
    · rw [if_neg hl]
      exact inv_dhcpReconfTail e leaseOk mtuPush llRunning o hInv hd

theorem inv_dhcpStep {net : Network} (ev : DhcpEv)
    (leaseOk mtuPush mtuDiff llRunning : Bool) (o : List Bool) {s : LinkS}
    (hInv : Inv net s) (hd : net.dhcp = true) :
    Inv net (dhcpStep net ev leaseOk mtuPush mtuDiff llRunning o s) := by
  unfold dhcpStep
  split
  · exact hInv
  · cases ev
    · exact hInv
    · exact inv_dhcpReconfArm .expired leaseOk mtuPush mtuDiff llRunning o
        hInv hd
    · exact inv_dhcpReconfArm .stop leaseOk mtuPush mtuDiff llRunning o
        hInv hd
    · exact inv_dhcpReconfArm .ipChange leaseOk mtuPush mtuDiff llRunning o
        hInv hd
    · exact inv_dhcpAcquireArm leaseOk mtuPush o hInv hd
    · exact hInv

theorem inv_llStep {net : Network} (ev : LLEv) (o : List Bool) {s : LinkS}
    (hInv : Inv net s) (hll : net.ipv4ll = true) :
    Inv net (ipv4llStep net ev o s) := by
  cases ev
  · show Inv net (linkEnterSetAddresses net o { s with bound := true })
    refine inv_enterSetAddresses o
      ⟨hInv.pre.hA, hInv.pre.hR, hInv.pre.hE, hInv.pre.hOrd⟩ ?_ ?_
    · intro _ hl
      rw [hll] at hl
      exact absurd hl (by decide)
    · rintro ⟨-, -, hc⟩
      rcases hc with hc | hc
      · rw [hll] at hc
        exact absurd hc (by decide)
      · have hc' : true = false := hc
        exact absurd hc' (by decide)
  · show Inv net (if s.bound = true then
        { push .cother (push .cother s) with bound := false } else s)
    split
    · exact inv_set_bound (inv_push_other (inv_push_other hInv)) false
    · exact hInv
  · show Inv net (if s.bound = true then
        { push .cother (push .cother s) with bound := false } else s)
    split
    · exact inv_set_bound (inv_push_other (inv_push_other hInv)) false
    · exact hInv
  · exact hInv

/-- The invariant holds on a freshly created link (`link_new` zero-fills
the structure and sets `LINK_STATE_INITIALIZING`). -/
theorem inv_init (net : Network) : Inv net {} := by
  refine ⟨⟨rfl, rfl, rfl, ord_nil⟩, ?_, ?_, ?_, ?_, ?_⟩
  · intro _
    exact ⟨rfl, rfl, rfl⟩
  · intro h
    simp at h
  · intro h
    simp at h
  · intro h
    simp at h
  · intro h
    simp at h

/-- Every event of the machine preserves the invariant. -/
theorem inv_step {net : Network} {e : Ev} {s : LinkS} (hInv : Inv net s)
    (hok : evOk net s e) : Inv net (step net e s) := by
  cases e
  · exact inv_linkInitialized hInv
  · exact inv_deliver _ _ _ hInv
  · obtain ⟨hd, -⟩ := hok
    exact inv_dhcpStep _ _ _ _ _ _ hInv hd
  · obtain ⟨hll, -⟩ := hok
    exact inv_llStep _ _ hInv hll
  · exact inv_push_other hInv
  · exact inv_enterFailed hInv.pre

/-- Every reachable state of the machine satisfies the invariant. -/
theorem inv_reachable {net : Network} {s : LinkS} (h : Reachable net s) :
    Inv net s := by
  induction h with
  | init => exact inv_init net
  | next _ hok ih => exact inv_step ih hok

/-! ### Claim theorems -/

/-- C1: for every link, a route completion decrements `route_messages`,
and `route_handler` calls `link_enter_configured` exactly when the
decremented counter is zero and the link state at decrement time is
SETTING_ROUTES; in particular a route acknowledgment arriving after the
machine has regressed to SETTING_ADDRESSES never transitions the link
to CONFIGURED.  The hypothesis is `route_handler`'s own precondition
(its assert at lines 159-161). -/
theorem c1_route_handler {s : LinkS} (rest : List CKind)
    (h : s.state = LinkState.settingAddresses ∨
      s.state = LinkState.settingRoutes ∨ s.state = LinkState.failed) :
    (routeCompletion s rest).routeMessages = s.routeMessages - 1 ∧
    ((routeCompletion s rest).state = LinkState.configured ↔
      s.routeMessages - 1 = 0 ∧ s.state = LinkState.settingRoutes) ∧
    (s.state = LinkState.settingAddresses →
      (routeCompletion s rest).state ≠ LinkState.configured) := by
  unfold routeCompletion
  simp only []
  rcases h with h | h | h
  · rw [if_neg (by simp [h])]
    rw [if_neg (by simp [h])]
    simp [h]
  · rw [if_neg (by simp [h])]
    by_cases hz : s.routeMessages - 1 = 0
    · rw [if_pos (by exact ⟨hz, h⟩)]
      simp [linkEnterConfigured, h, hz]
    · rw [if_neg (by simp [hz])]
      simp [h, hz]
  · rw [if_pos (by simp [h])]
    simp [h]

/-- C1 witness: a concrete route completion in SETTING_ROUTES with one
pending message enters CONFIGURED. -/
theorem c1_route_handler_witness :
    (routeCompletion
        { state := LinkState.settingRoutes, routeMessages := 1,
          q := [CKind.croute] } []).routeMessages = 1 - 1 ∧
    ((routeCompletion
        { state := LinkState.settingRoutes, routeMessages := 1,
          q := [CKind.croute] } []).state = LinkState.configured ↔
      1 - 1 = 0 ∧ LinkState.settingRoutes = LinkState.settingRoutes) ∧
    (LinkState.settingRoutes = LinkState.settingAddresses →
      (routeCompletion
        { state := LinkState.settingRoutes, routeMessages := 1,
          q := [CKind.croute] } []).state ≠ LinkState.configured) :=
  c1_route_handler [] (Or.inr (Or.inl rfl))

/-- C2: in every reachable state of the event-driven machine,
`state == CONFIGURED` implies `addr_messages == 0`,
`route_messages == 0` and `enslaving == 0`. -/
theorem c2_configured_quiescent {net : Network} {s : LinkS}
    (h : Reachable net s) (hc : s.state = LinkState.configured) :
    s.addrMessages = 0 ∧ s.routeMessages = 0 ∧ s.enslaving = 0 := by
  have hInv := inv_reachable h
  obtain ⟨hA, hR, hE⟩ := hInv.hConf hc
  exact ⟨by rw [hInv.pre.hA]; exact hA,
    by rw [hInv.pre.hR]; exact hR,
    by rw [hInv.pre.hE]; exact hE⟩

/-- C2 witness: the empty profile reaches CONFIGURED in one step, and
the theorem yields the three zero counters there. -/
theorem c2_configured_quiescent_witness :
    ({ state := LinkState.configured : LinkS }).addrMessages = 0 ∧
    ({ state := LinkState.configured : LinkS }).routeMessages = 0 ∧
    ({ state := LinkState.configured : LinkS }).enslaving = 0 := by
  have hstep : step ({} : Network) (Ev.initialized true []) {} =
      { state := LinkState.configured } := by decide
  have hr : Reachable ({} : Network) { state := LinkState.configured } :=
    hstep ▸ Reachable.next Reachable.init trivial
  exact c2_configured_quiescent hr rfl

/-- C3: with a DHCP lease holding gateway `g`, `link_enter_set_routes`
submits exactly two lease-derived routes — the emission list is the
static routes followed by exactly the host route and then the default
route — and the host route (destination `g`, prefix length 32, scope
`RT_SCOPE_LINK`) precedes the default route whose `in_addr` is `g`. -/
theorem c3_lease_routes (staticRoutes : List RouteSpec) (L : LeaseData)
    (llAddr : Option Nat) :
    setRoutesEmissions staticRoutes (some L) llAddr =
      staticRoutes ++ [gwHostRoute L.router, gwDefaultRoute L.router] ∧
    gwHostRoute L.router =
      { family := AF_INET, dstAddr := L.router, dstPlen := 32,
        scope := RT_SCOPE_LINK, metrics := 0, inAddr := 0 } ∧
    gwDefaultRoute L.router =
      { family := AF_INET, dstAddr := 0, dstPlen := 0,
        scope := RT_SCOPE_UNIVERSE, metrics := 0, inAddr := L.router } :=
  ⟨by cases llAddr <;> simp [setRoutesEmissions], rfl, rfl⟩

/-- C4: with a DHCP lease holding address `a` and netmask `m`,
`link_enter_set_addresses` submits (last) an address whose prefix length
is computed from `m` and whose broadcast is `a | ~m` — the complement
taken on the 32-bit word, i.e. xor with `0xffffffff`.  The concrete
instance is the spec's scenario B: 192.168.1.50/255.255.255.0 gets
broadcast 192.168.1.255 and prefix length 24. -/
theorem c4_lease_address (staticAddresses : List AddressSpec) (L : LeaseData)
    (llAddr : Option Nat) :
    setAddressesEmissions staticAddresses (some L) llAddr =
      staticAddresses ++ [dhcpAddressSpec L] ∧
    dhcpAddressSpec L =
      { family := AF_INET, inAddr := L.addr,
        plen := netmaskToPlen L.netmask,
        broadcast := Nat.lor L.addr (Nat.xor L.netmask 4294967295),
        scope := 0, prefered := CACHE_INFO_INFINITY_LIFE_TIME } ∧
    netmaskToPlen 4294967040 = 24 ∧
    Nat.lor 3232235826 (Nat.xor 4294967040 4294967295) = 3232236031 :=
  ⟨by cases llAddr <;> simp [setAddressesEmissions], rfl, by decide, by decide⟩

/-- C5: with `dhcp_critical` set, the events EXPIRED, STOP and
IP_CHANGE leave the machine state completely unchanged — same state,
same stored lease, and no kernel operation is submitted (the in-flight
queue is untouched, so nothing is withdrawn). -/
theorem c5_critical_refusal (net : Network) (h : net.dhcpCritical = true)
    (ev : DhcpEv)
    (hev : ev = DhcpEv.expired ∨ ev = DhcpEv.stop ∨ ev = DhcpEv.ipChange)
    (leaseOk mtuPush mtuDiff llRunning : Bool) (o : List Bool) (s : LinkS) :
    dhcpStep net ev leaseOk mtuPush mtuDiff llRunning o s = s := by
  unfold dhcpStep
  split
  · rfl
  · rcases hev with rfl | rfl | rfl <;>
      · show dhcpReconfArm net _ leaseOk mtuPush mtuDiff llRunning o s = s
        unfold dhcpReconfArm
        rw [if_pos h]

/-- C5 witness: a critical-lease link in CONFIGURED with a stored lease
ignores a STOP event. -/
theorem c5_critical_refusal_witness :
    dhcpStep { dhcp := true, dhcpCritical := true } DhcpEv.stop
      true true true true []
      { state := LinkState.configured, lease := true } =
    { state := LinkState.configured, lease := true } :=
  c5_critical_refusal { dhcp := true, dhcpCritical := true } rfl
    DhcpEv.stop (Or.inr (Or.inl rfl)) true true true true []
    { state := LinkState.configured, lease := true }

/-- C6 counterexample: a route configure completion reporting errno
`-EINVAL` (neither success nor `-EEXIST`) in SETTING_ROUTES with one
pending message does **not** transition the link to FAILED — it drains
the counter and enters CONFIGURED (`route_handler` only logs the
errno). -/
theorem c6_counterexample :
    (step { staticRoutes := 1 } (Ev.deliverEv (-22) true [])
        { state := LinkState.settingRoutes, routeMessages := 1,
          q := [CKind.croute] }).state = LinkState.configured ∧
    LinkState.configured ≠ LinkState.failed := by decide

/-- With an exhausted (all-success) oracle, a submission loop pushes all
its items and reports success. -/
theorem submitMany_nil (k : CKind) (n : Nat) (s : LinkS) :
    submitMany k n [] s = (pushN k n s, true, []) := by
  induction n generalizing s with
  | zero => rfl
  | succ n ih => exact ih (push k s)

/-- With no failing submission, `link_enter_set_routes` leaves the link
in SETTING_ROUTES or CONFIGURED — never FAILED. -/
theorem setRoutes_nil_state (net : Network) (s : LinkS) :
    (linkEnterSetRoutes net [] s).state = LinkState.settingRoutes ∨
    (linkEnterSetRoutes net [] s).state = LinkState.configured := by
  unfold linkEnterSetRoutes
  simp only []
  split
  · right; rfl
  · rw [submitMany_nil]
    simp only []
    split
    · rename_i s3 o3 hm
      split at hm <;> simp [oHead] at hm
    · rename_i s3 o3 hm
      have key : s3.state = LinkState.settingRoutes ∧ o3 = [] := by
        split at hm <;> simp [oHead] at hm <;>
          exact ⟨by rw [← hm.1]; simp, hm.2⟩
      obtain ⟨hst, rfl⟩ := key
      left
      split
      · simp [oHead, hst]
      · exact hst

/-- C6 amended: an address or route configure completion whose errno is
neither 0 nor `-EEXIST` is logged but tolerated.  The route handler
never transitions the link to FAILED (the result is FAILED only when
the link already was); the address handler likewise never fails the
link on account of the completion — with no failing follow-up
submission it ends in SETTING_ADDRESSES, SETTING_ROUTES or CONFIGURED.
(The completion's errno is not even an input of the handlers' state
change: only configure-submission failures and enslave completions
drive the machine to FAILED.) -/
theorem c6_amended :
    (∀ (s : LinkS) (rest : List CKind),
      (routeCompletion s rest).state = LinkState.failed ↔
        s.state = LinkState.failed) ∧
    (∀ (net : Network) (s : LinkS) (rest : List CKind),
      s.state ≠ LinkState.failed →
      (addrCompletion net [] s rest).state ≠ LinkState.failed) := by
  constructor
  · intro s rest
    unfold routeCompletion
    simp only []
    constructor
    · intro h
      split at h
      · exact h
      · split at h
        · exact absurd h (by simp [linkEnterConfigured])
        · exact h
    · intro h
      rw [if_pos (by simpa using h)]
      simpa using h
  · intro net s rest h
    unfold addrCompletion
    simp only []
    split
    · rename_i hf
      exact absurd hf (by simpa using h)
    · split
      · rcases setRoutes_nil_state net
          { s with q := rest, addrMessages := s.addrMessages - 1 } with
          hst | hst <;> simp [hst]
      · simpa using h

/-- C6 amended, witness: a concrete route completion with an error
errno keeps the link out of FAILED, and a concrete address completion
(1 pending, static profile) advances without failing. -/
theorem c6_amended_witness :
    ((routeCompletion
        { state := LinkState.settingAddresses, routeMessages := 2,
          q := [CKind.croute, CKind.caddr] } [CKind.caddr]).state =
        LinkState.failed ↔
      ({ state := LinkState.settingAddresses, routeMessages := 2,
          q := [CKind.croute, CKind.caddr] } : LinkS).state =
        LinkState.failed) ∧
    (addrCompletion { staticRoutes := 1 } []
        { state := LinkState.settingAddresses, addrMessages := 1,
          q := [CKind.caddr] } []).state ≠ LinkState.failed :=
  ⟨c6_amended.1
      { state := LinkState.settingAddresses, routeMessages := 2,
        q := [CKind.croute, CKind.caddr] } [CKind.caddr],
   c6_amended.2 { staticRoutes := 1 }
      { state := LinkState.settingAddresses, addrMessages := 1,
        q := [CKind.caddr] } [] (by decide)⟩

/-- C7: the DHCP/IPv4LL arbitration.  On IP_ACQUIRE with an IPv4LL
client present: a bound link-local address is re-issued via
`address_update` with preferred lifetime 0 (deprecated — the emitted
operation is an update, not a drop); an unbound client is stopped.  On
EXPIRED with the profile's `ipv4ll` flag: a stopped client is started;
a bound one is re-issued with infinite preferred lifetime. -/
theorem c7_arbitration (a : Nat) :
    acquireArbitrationOps true (some a) =
      [LinkOp.updateAddress (llUpdateSpec true a)] ∧
    (llUpdateSpec true a).prefered = 0 ∧
    acquireArbitrationOps true none = [LinkOp.stopLL] ∧
    expiredIpv4llOps true false (some a) = [LinkOp.startLL] ∧
    expiredIpv4llOps true false none = [LinkOp.startLL] ∧
    expiredIpv4llOps true true (some a) =
      [LinkOp.updateAddress (llUpdateSpec false a)] ∧
    (llUpdateSpec false a).prefered = CACHE_INFO_INFINITY_LIFE_TIME :=
  ⟨rfl, rfl, rfl, rfl, rfl, rfl, rfl⟩

/-- C8: `original_mtu` is assigned at most once.  While unset (0), a
`link_update` carrying `IFLA_MTU` captures it; once non-zero, no
sequence of further `link_update` calls changes it; and the MTU
restored by `dhcp_lease_lost` (when `dhcp_mtu` was applied) is exactly
`original_mtu`: every `setMtu` operation it emits carries that value. -/
theorem c8_original_mtu (o : Nat) (h : o ≠ 0) :
    (∀ v, linkUpdateMtu 0 (some v) = v) ∧
    (∀ m, linkUpdateMtu o m = o) ∧
    (∀ msgs : List (Option Nat), msgs.foldl linkUpdateMtu o = o) ∧
    (∀ (l : LeaseData) (dm : Bool) (lm : Option Nat) (dh : Bool)
        (lh : Option String) (v : Nat),
      LinkOp.setMtu v ∈ dhcpLeaseLostOps l dm lm o dh lh → v = o) := by
  refine ⟨fun v => by simp [linkUpdateMtu], fun m => by simp [linkUpdateMtu, h],
    ?_, ?_⟩
  · intro msgs
    induction msgs with
    | nil => rfl
    | cons m rest ih =>
      show (rest.foldl linkUpdateMtu (linkUpdateMtu o m)) = o
      rw [show linkUpdateMtu o m = o from by simp [linkUpdateMtu, h]]
      exact ih
  · intro l dm lm dh lh v hv
    unfold dhcpLeaseLostOps at hv
    simp only [List.mem_append, List.mem_cons, List.mem_singleton] at hv
    rcases hv with ((h1 | h1 | h1) | h1) | h1
    · exact absurd h1 (by simp)
    · exact absurd h1 (by simp)
    · simp at h1
    · revert h1
      split
      · split
        · split
          · intro h1
            simp at h1
            omega
          · intro h1
            simp at h1
        · intro h1
          simp at h1
      · intro h1
        simp at h1
    · revert h1
      split
      · split
        · intro h1
          simp at h1
        · intro h1
          simp at h1
      · intro h1
        simp at h1

/-- C8 witness at `original_mtu = 1500`. -/
theorem c8_original_mtu_witness :
    (∀ v, linkUpdateMtu 0 (some v) = v) ∧
    (∀ m, linkUpdateMtu 1500 m = 1500) ∧
    (∀ msgs : List (Option Nat), msgs.foldl linkUpdateMtu 1500 = 1500) ∧
    (∀ (l : LeaseData) (dm : Bool) (lm : Option Nat) (dh : Bool)
        (lh : Option String) (v : Nat),
      LinkOp.setMtu v ∈ dhcpLeaseLostOps l dm lm 1500 dh lh → v = 1500) :=
  c8_original_mtu 1500 (by decide)

/-- C9 counterexample: when the lease serialization (`dhcp_lease_save`)
fails, `link_save` jumps to `finish` and returns the error **without
unlinking anything** — the temporary file (already chmodded and holding
the header) is left behind, and the target is not removed either.  This
contradicts the claim that every error unlinks both files. -/
theorem c9_counterexample :
    (linkSave true true false true true).2 = false ∧
    FsOp.unlinkTemp ∉ (linkSave true true false true true).1 ∧
    FsOp.unlinkTarget ∉ (linkSave true true false true true).1 ∧
    FsOp.openTemp ∈ (linkSave true true false true true).1 := by decide

/-- The successful write prefix of `link_save`: open the temporary file,
chmod it, write the header and `STATE=` line, and — when a lease is
held — serialize the lease and write the `DHCP_LEASE=` line. -/
def linkSaveBase (leaseHeld : Bool) : List FsOp :=
  [.openTemp, .chmodTemp, .writeHeader]
    ++ (if leaseHeld then [.saveLease, .writeLeaseRef] else [])

/-- C9 amended: `link_save` unlinks both the state file and the
temporary file exactly on the late errors — a stream error detected at
`fflush`/`ferror` time, or a failed `rename`; a failed temporary-file
creation returns immediately (nothing written, nothing unlinked), and a
failed lease serialization returns early without unlinking, leaving the
temporary file behind.  On success the state file appears atomically
via `rename` as the last operation, and the `DHCP_LEASE=` line is
written if and only if a lease is currently held. -/
theorem c9_amended : ∀ leaseHeld f r : Bool,
    (linkSave leaseHeld true true false r).1 =
      linkSaveBase leaseHeld ++ [.flushTemp, .unlinkTarget, .unlinkTemp] ∧
    (linkSave leaseHeld true true false r).2 = false ∧
    (linkSave leaseHeld true true true false).1 =
      linkSaveBase leaseHeld ++
        [.flushTemp, .renameTemp, .unlinkTarget, .unlinkTemp] ∧
    (linkSave leaseHeld true true true false).2 = false ∧
    linkSave leaseHeld false true f r = ([.openTemp], false) ∧
    linkSave true true false f r =
      ([.openTemp, .chmodTemp, .writeHeader, .saveLease], false) ∧
    linkSave leaseHeld true true true true =
      (linkSaveBase leaseHeld ++ [.flushTemp, .renameTemp], true) ∧
    (FsOp.writeLeaseRef ∈ (linkSave leaseHeld true true true true).1 ↔
      leaseHeld = true) := by decide

/-- C10: `link_new` rejects messages that are not `RTM_NEWLINK` and
messages whose interface index is not positive with `-EINVAL`, touching
the registry in neither case. -/
theorem c10_link_new (links : List Int) (t : Nat) (i : Int) (nOk : Bool)
    (ne : Int) :
    (t ≠ RTM_NEWLINK → linkNew links t i nOk ne = (links, some (-EINVAL))) ∧
    (i ≤ 0 → linkNew links RTM_NEWLINK i nOk ne = (links, some (-EINVAL))) := by
  constructor
  · intro h
    unfold linkNew
    rw [if_pos h]
  · intro h
    unfold linkNew
    rw [if_neg (by simp), if_pos h]

/-- C10 witness: a message of type 3 (`RTM_GETLINK`) and an
`RTM_NEWLINK` message with interface index −1 are both rejected with
`-EINVAL`, leaving the empty registry empty. -/
theorem c10_link_new_witness :
    linkNew [] 3 5 true 0 = ([], some (-EINVAL)) ∧
    linkNew [] RTM_NEWLINK (-1) true 0 = ([], some (-EINVAL)) :=
  ⟨(c10_link_new [] 3 5 true 0).1 (by decide),
   (c10_link_new [] 16 (-1) true 0).2 (by decide)⟩

end Networkd
